import Mathlib

/-!
# Verification of the stepwise drift-correction pipeline (Drift_Function.py)

Shallow embedding of the force-signal drift-removal program: step
segmentation by threshold crossing (`step_ID`), aerial-phase trimming
post-check (`trim_aerial_phases`), aerial-mean estimation and the
stepwise baseline subtraction loop of `detrend_force`.  Force samples
are modelled as triples of rationals `[horizontal, horizontal, vertical]`,
numpy arrays as lists, and Python exceptions as an explicit error type.
-/

/-- A single force sample: two horizontal axes and one vertical axis. -/
abbrev F3 : Type := ℚ × ℚ × ℚ

/-- Python exceptions raised by the program: `ValueError` in
`readcheck_input`, `IndexError` in `step_ID` (both the explicit raise and
the array-indexing failures caused by `np.squeeze`) and in
`trim_aerial_phases`. -/
inductive PyErr : Type
  | valueError (msg : String)
  | indexError (msg : String)
deriving DecidableEq, Repr

/-- `readcheck_input`: accepts the imported table only when it has exactly
3 columns, otherwise raises `ValueError`.  The parsed file is modelled as a
rectangular list of rows; the column count (`shape[1]`) is the length of
the first row. -/
def readcheck_input (table : List (List ℚ)) : Except PyErr (List (List ℚ)) :=
  if table.headI.length = 3 then .ok table
  else .error (.valueError "force data must be Nx3 columns [horizontal, horizontal, vertical]")

/-- `compare = (force[:,2] > threshold).astype(int)`: binarize the vertical
channel against the threshold. -/
def binarize (force : List F3) (threshold : ℚ) : List Int :=
  force.map (fun s => if threshold < s.2.2 then 1 else 0)

/-- `np.diff`: first difference of a sequence. -/
def diffL : List Int → List Int
  | a :: b :: rest => (b - a) :: diffL (b :: rest)
  | _ => []

/-- Indices (in increasing order) at which the list holds the value `v`,
starting the count at `n` — models `np.nonzero(events == v)`. -/
def idxOfAux (v : Int) : List Int → Nat → List Nat
  | [], _ => []
  | a :: rest, n => if a = v then n :: idxOfAux v rest (n + 1) else idxOfAux v rest (n + 1)

/-- `np.nonzero(events == v)` as a sorted list of indices. -/
def idxOf (v : Int) (l : List Int) : List Nat := idxOfAux v l 0

/-- `step_begin = np.nonzero(events == 1)`: rising-edge indices. -/
def risingEdges (force : List F3) (threshold : ℚ) : List Nat :=
  idxOf 1 (diffL (binarize force threshold))

/-- `step_end = np.nonzero(events == -1)`: falling-edge indices. -/
def fallingEdges (force : List F3) (threshold : ℚ) : List Nat :=
  idxOf (-1) (diffL (binarize force threshold))

/-- A rising edge at event index `k`: the binarized sequence steps from 0
at sample `k` to 1 at sample `k+1`. -/
def riseAt (cp : List Int) (k : Nat) : Prop :=
  k + 1 < cp.length ∧ cp[k]! = 0 ∧ cp[(k + 1)]! = 1

/-- A falling edge at event index `k`: the binarized sequence steps from 1
at sample `k` to 0 at sample `k+1`. -/
def fallAt (cp : List Int) (k : Nat) : Prop :=
  k + 1 < cp.length ∧ cp[k]! = 1 ∧ cp[(k + 1)]! = 0

/-- Lines 48-50 of `step_ID`: drop falling edges at or before the first
rising edge, then truncate the begin list to the retained end count. -/
def retainedEdges (step_begin step_end : List Nat) : List Nat × List Nat :=
  let step_end2 := step_end.filter (fun e => decide (step_begin.headI < e))
  (step_begin.take step_end2.length, step_end2)

/-- The validation mask `min_step <= step_len <= max_step` applied to one
begin/end pair (`step_len = end - begin`, compared against the rational
parameters as the Python ints are compared against floats). -/
def goodStep (min_step max_step : ℚ) (p : Nat × Nat) : Bool :=
  decide (min_step ≤ (((p.2 : Int) - (p.1 : Int) : Int) : ℚ)) &&
    decide ((((p.2 : Int) - (p.1 : Int) : Int) : ℚ) ≤ max_step)

/-- `step_ID`: threshold-crossing step segmentation.  Mirrors the source:
the `min_step < max_step` guard, edge detection on the binarized vertical
channel, the `np.squeeze` behaviour (0 rising edges leaves an empty array
and exactly 1 rising edge a 0-d array, so `step_begin[0]` raises
`IndexError` in both cases), the retained-edge pairing and the
`min_step`/`max_step` validation mask. -/
def step_ID (force : List F3) (threshold Fs min_step max_step : ℚ) :
    Except PyErr (List Nat × List Nat) :=
  if min_step < max_step then
    let step_begin := risingEdges force threshold
    let step_end := fallingEdges force threshold
    if step_begin.length = 0 then
      .error (.indexError "index 0 is out of bounds for axis 0 with size 0")
    else if step_begin.length = 1 then
      .error (.indexError "too many indices for array: array is 0-dimensional, but 1 were indexed")
    else
      let r := retainedEdges step_begin step_end
      let good := (r.1.zip r.2).filter (goodStep min_step max_step)
      .ok (good.map Prod.fst, good.map Prod.snd)
  else .error (.indexError "Did not separate steps. Min step length > Max step length of 0.4s.")

/-- The error raised by `trim_aerial_phases` when some aerial phase is too
short for the selected trim. -/
def trimTooShortError : PyErr :=
  .indexError "Trim amount is greater than aerial phase length. If trim selection was reasonable, adjust threshold or min_step_len."

/-- The aerial-phase lengths `aerial_len = begin[1:] - end[:-1]` derived in
`trim_aerial_phases` (begin/end of stance phases). -/
def aerialLens (begin_ end_ : List Nat) : List Int :=
  List.zipWith (fun e b => (b : Int) - (e : Int)) end_.dropLast (begin_.drop 1)

/-- `trim_aerial_phases`, with the interactively selected trim width
supplied as a parameter (the blocking UI loop of lines 120-134 is the
external provider of `trim`); embeds the aerial-phase derivation and the
post-check of lines 136-142. -/
def trim_aerial_phases (begin_ end_ : List Nat) (trim : Nat) : Except PyErr Nat :=
  if (aerialLens begin_ end_).any (fun l => decide (l < (trim : Int) * 2)) then
    .error trimTooShortError
  else .ok trim

/-- Python slice `l[s:e]` for non-negative bounds. -/
def npSlice (l : List α) (s e : Nat) : List α := (l.take e).drop s

/-- `np.mean` of a list of rationals (sum divided by length). -/
def npMean (l : List ℚ) : ℚ := l.sum / (l.length : ℚ)

/-- Lines 241-245 of `detrend_force`: per-axis mean of each trimmed aerial
phase `force_f[aerial_begin[i]+trim : aerial_end[i]-trim]`. -/
def estimate_means (force_f : List F3) (ab ae : List Nat) (trim : Nat) : List F3 :=
  (List.range ab.length).map (fun i =>
    (npMean ((npSlice force_f (ab[i]! + trim) (ae[i]! - trim)).map (fun s => s.1)),
     npMean ((npSlice force_f (ab[i]! + trim) (ae[i]! - trim)).map (fun s => s.2.1)),
     npMean ((npSlice force_f (ab[i]! + trim) (ae[i]! - trim)).map (fun s => s.2.2))))

/-- Subtract the scalar baseline from all three axes of one sample. -/
def sub3 (s : F3) (d : ℚ) : F3 := (s.1 - d, s.2.1 - d, s.2.2 - d)

/-- The slice assignment
`acc[s:e,:] = src[s:e,:] - d` used by the detrend loop. -/
def writeWindow (acc src : List F3) (s e : Nat) (d : ℚ) : List F3 :=
  (List.range acc.length).map (fun n => if s ≤ n ∧ n < e then sub3 src[n]! d else acc[n]!)

/-- Lines 253-259 of `detrend_force`: starting from
`force_fd = np.zeros(force_f.shape)`, for each `i` in
`range(len(aerial_means) - 1)` subtract the average of the vertical
components of aerial means `i` and `i+1` from the window
`[step_begin_all[i], step_begin_all[i+1])`. -/
def detrendLoop (force_f : List F3) (step_begin_all : List Nat) (aerial_means : List F3) : List F3 :=
  (List.range (aerial_means.length - 1)).foldl
    (fun acc i =>
      writeWindow acc force_f step_begin_all[i]! step_begin_all[(i+1)]!
        ((aerial_means[i]!.2.2 + aerial_means[(i+1)]!.2.2) / 2))
    (List.replicate force_f.length ((0 : ℚ), (0 : ℚ), (0 : ℚ)))

/-- The first `m` iterations of the detrend loop, starting from the
all-zero array (proof helper: `detrendLoop` is `detrendPartial` at
`m = aerial_means.length - 1`). -/
def detrendPartial (force_f : List F3) (step_begin_all : List Nat) (aerial_means : List F3)
    (m : Nat) : List F3 :=
  (List.range m).foldl
    (fun acc i =>
      writeWindow acc force_f step_begin_all[i]! step_begin_all[(i+1)]!
        ((aerial_means[i]!.2.2 + aerial_means[(i+1)]!.2.2) / 2))
    (List.replicate force_f.length ((0 : ℚ), (0 : ℚ), (0 : ℚ)))

/-- One row of the imported table as a force sample. -/
def toF3 (r : List ℚ) : F3 := (r[0]!, r[1]!, r[2]!)

/-- `detrend_force`: the whole pipeline, with the external collaborators
supplied as parameters — `filt` is the zero-phase Butterworth filter
(black box built from `Fs` and `Fc`) and `trim` the interactively selected
trim width.  Returns the detrended signal, the pre-correction aerial means
and the post-correction vertical aerial means filtered to non-zero
entries, mirroring lines 218-305 without the plotting. -/
def detrend_force (table : List (List ℚ)) (filt : List F3 → List F3)
    (Fs Fc min_step step_threshold : ℚ) (trim : Nat) :
    Except PyErr (List F3 × List F3 × List ℚ) :=
  match readcheck_input table with
  | .error e => .error e
  | .ok rows =>
    let force := rows.map toF3
    let force_f := filt force
    let max_step := (0.4 : ℚ) * Fs
    match step_ID force_f step_threshold Fs min_step max_step with
    | .error e => .error e
    | .ok (step_begin_all, step_end_all) =>
      let aerial_begin_all := step_end_all.dropLast
      let aerial_end_all := step_begin_all.drop 1
      match trim_aerial_phases step_begin_all step_end_all trim with
      | .error e => .error e
      | .ok trim2 =>
        let aerial_means := estimate_means force_f aerial_begin_all aerial_end_all trim2
        let force_fd := detrendLoop force_f step_begin_all aerial_means
        let aerial_means_d :=
          ((List.range aerial_begin_all.length).map (fun i =>
            npMean ((npSlice force_fd (aerial_begin_all[i]! + trim2)
              (aerial_end_all[i]! - trim2)).map (fun s => s.2.2)))).filter
            (fun m => decide (m ≠ 0))
        .ok (force_fd, aerial_means, aerial_means_d)

/-- Concrete signal whose stance block splits in two when the threshold is
raised from 0 to 2 (vertical channel `0, 5, 1, 5, 0, 5, 0`). -/
def C9sig : List F3 := [(0,0,0), (0,0,5), (0,0,1), (0,0,5), (0,0,0), (0,0,5), (0,0,0)]

/-- Ten constant samples `(1,1,1)`, used to exhibit the uncorrected tail
window of the detrend loop. -/
def C1force : List F3 := List.replicate 10 (1, 1, 1)

/-- A signal whose vertical channel crosses the threshold upward exactly
once (vertical `0, 5, 5`). -/
def oneRiseSig : List F3 := [(0,0,0), (0,0,5), (0,0,5)]

/-- A signal that starts above threshold (vertical `5, 0, 5, 0, 5, 0`). -/
def startsHighSig : List F3 := [(0,0,5), (0,0,0), (0,0,5), (0,0,0), (0,0,5), (0,0,0)]

/-- C3: when `min_step ≥ max_step`, step segmentation fails immediately
with the configuration-guard error (the `IndexError` raised at the
top-level guard of `step_ID`, the failure the design taxonomy calls
`ConfigurationError`), and the result is the same for every input signal —
no binarization, edge detection or validation is performed on the
signal. -/
theorem C3_configuration_guard (threshold Fs min_step max_step : ℚ)
    (h : max_step ≤ min_step) (force force' : List F3) :
    step_ID force threshold Fs min_step max_step =
      .error (.indexError "Did not separate steps. Min step length > Max step length of 0.4s.") ∧
    step_ID force threshold Fs min_step max_step =
      step_ID force' threshold Fs min_step max_step := by
  have hnot : ¬ min_step < max_step := not_lt.mpr h
  refine ⟨?_, ?_⟩ <;> simp [step_ID, hnot]

/-- Witness for C3 at a concrete configuration. -/
theorem C3_configuration_guard_witness :
    step_ID [((0:ℚ), (0:ℚ), (0:ℚ))] 100 1000 5 3 =
      .error (.indexError "Did not separate steps. Min step length > Max step length of 0.4s.") :=
  (C3_configuration_guard 100 1000 5 3 (by norm_num) [((0:ℚ), (0:ℚ), (0:ℚ))] []).1

/-- C10: with a valid configuration but fewer than two rising edges in the
binarized vertical channel, `step_ID` raises an `IndexError` while
indexing the detected-edge arrays (`step_begin[0]` on an empty or, after
`np.squeeze`, 0-dimensional array) instead of returning empty or
length-one index sequences. -/
theorem C10_few_rising_edges (force : List F3) (threshold Fs min_step max_step : ℚ)
    (hcfg : min_step < max_step) (hr : (risingEdges force threshold).length < 2) :
    ∃ msg, step_ID force threshold Fs min_step max_step = .error (.indexError msg) := by
  simp only [step_ID, if_pos hcfg]
  rcases (by omega :
      (risingEdges force threshold).length = 0 ∨ (risingEdges force threshold).length = 1)
    with h0 | h1
  · rw [if_pos h0]; exact ⟨_, rfl⟩
  · rw [if_neg (by omega), if_pos h1]; exact ⟨_, rfl⟩

/-- Witness for C10: a signal crossing the threshold upward exactly once. -/
theorem C10_few_rising_edges_witness :
    (risingEdges oneRiseSig 1).length = 1 ∧
    (∃ msg, step_ID oneRiseSig 1 1000 1 2 = .error (.indexError msg)) :=
  ⟨by rfl, C10_few_rising_edges oneRiseSig 1 1000 1 2 (by norm_num) (by decide)⟩

/-- C4 (amended): `trim_aerial_phases` accepts the trim width exactly when
`2*trim ≤ length` holds for every derived aerial phase, and raises the
segmentation `IndexError` exactly when some aerial phase has length
strictly below `2*trim`; equality `2*trim = length` is accepted. -/
theorem C4_trim_bound (begin_ end_ : List Nat) (trim : Nat) :
    (trim_aerial_phases begin_ end_ trim = .ok trim ↔
      ∀ l ∈ aerialLens begin_ end_, (trim : Int) * 2 ≤ l) ∧
    (trim_aerial_phases begin_ end_ trim = .error trimTooShortError ↔
      ∃ l ∈ aerialLens begin_ end_, l < (trim : Int) * 2) := by
  have hb : ((aerialLens begin_ end_).any (fun l => decide (l < (trim : Int) * 2))) = true ↔
      ∃ l ∈ aerialLens begin_ end_, l < (trim : Int) * 2 := by
    simp [List.any_eq_true]
  unfold trim_aerial_phases
  by_cases h : ∃ l ∈ aerialLens begin_ end_, l < (trim : Int) * 2
  · rw [if_pos (hb.mpr h)]
    refine ⟨iff_of_false (by simp) ?_, iff_of_true rfl h⟩
    obtain ⟨l, hl, hlt⟩ := h
    intro hall
    exact absurd (hall l hl) (not_le.mpr hlt)
  · rw [if_neg (fun hc => h (hb.mp hc))]
    refine ⟨iff_of_true rfl ?_, iff_of_false (by simp) h⟩
    intro l hl
    by_contra hlt
    exact h ⟨l, hl, not_le.mp hlt⟩

/-- Counterexample to C4 as stated: with stance begins `[0,10]` and ends
`[4,14]`, the single aerial phase has length `6 = 2*3`, which is not
strictly greater than `2*trim` for `trim = 3`, yet the trim step accepts
and returns the trim value instead of failing. -/
theorem C4_counterexample :
    trim_aerial_phases [0, 10] [4, 14] 3 = .ok 3 ∧
    aerialLens [0, 10] [4, 14] = [6] ∧ ¬ ((2 * 3 : Int) < 6) :=
  ⟨by rfl, by rfl, by decide⟩

/-- C8 (amended): any table whose column count is not 3 makes the pipeline
fail with the `ValueError` of `readcheck_input` — whose full message is
"force data must be Nx3 columns [horizontal, horizontal, vertical]" —
before the filter, segmentation or any later stage runs (the result is
this error for every filter and every parameter choice), and any 3-column
table is returned unchanged. -/
theorem C8_input_shape (table : List (List ℚ)) :
    (table.headI.length ≠ 3 →
      ∀ (filt : List F3 → List F3) (Fs Fc min_step step_threshold : ℚ) (trim : Nat),
        detrend_force table filt Fs Fc min_step step_threshold trim =
          .error (.valueError "force data must be Nx3 columns [horizontal, horizontal, vertical]")) ∧
    (table.headI.length = 3 → readcheck_input table = .ok table) := by
  constructor
  · intro h filt Fs Fc mn th tr
    simp [detrend_force, readcheck_input, h]
  · intro h
    simp [readcheck_input, h]

/-- Counterexample to C8 as stated: the raised message is the full string
with the axis list, not the abridged "force data must be Nx3 columns". -/
theorem C8_counterexample :
    readcheck_input [[1, 2, 3, 4]] =
      .error (.valueError "force data must be Nx3 columns [horizontal, horizontal, vertical]") ∧
    "force data must be Nx3 columns [horizontal, horizontal, vertical]" ≠
      "force data must be Nx3 columns" :=
  ⟨by rfl, by decide⟩

/-- Witness for C8: a 4-column row fails the whole pipeline; a 3-column
table passes through ingestion unchanged. -/
theorem C8_input_shape_witness :
    detrend_force [[1, 2, 3, 4]] id 1000 30 40 100 0 =
      .error (.valueError "force data must be Nx3 columns [horizontal, horizontal, vertical]") ∧
    readcheck_input [[1, 2, 3]] = .ok [[1, 2, 3]] :=
  ⟨(C8_input_shape [[1, 2, 3, 4]]).1 (by decide) id 1000 30 40 100 0,
   (C8_input_shape [[1, 2, 3]]).2 (by decide)⟩

/-- C9 (amended): raising the threshold is pointwise antitone on the
binarized stance classification — every sample above the higher threshold
is above the lower one — but the number of detected stance phases can
increase, because one stance phase can split in two (see the
counterexample). -/
theorem C9_binarize_antitone (force : List F3) (t1 t2 : ℚ) (h : t1 ≤ t2)
    (n : Nat) (hn : n < force.length) :
    (binarize force t2)[n]! ≤ (binarize force t1)[n]! := by
  have hn2 : n < (binarize force t2).length := by simpa [binarize] using hn
  have hn1 : n < (binarize force t1).length := by simpa [binarize] using hn
  rw [getElem!_pos (binarize force t2) n hn2, getElem!_pos (binarize force t1) n hn1]
  simp only [binarize, List.getElem_map]
  by_cases h2 : t2 < (force[n]).2.2
  · rw [if_pos h2, if_pos (lt_of_le_of_lt h h2)]
  · rw [if_neg h2]
    split <;> norm_num

/-- Counterexample to C9 as stated: on `C9sig`, threshold 0 yields 2
validated stance phases but the larger threshold 2 yields 3 (the middle
dip to 1 splits one stance), so raising the threshold increased the
number of detected stance phases. -/
theorem C9_counterexample :
    (0 : ℚ) ≤ 2 ∧
    step_ID C9sig 0 1000 1 10 = .ok ([0, 4], [3, 5]) ∧
    step_ID C9sig 2 1000 1 10 = .ok ([0, 2, 4], [1, 3, 5]) ∧
    ([0, 4] : List Nat).length < ([0, 2, 4] : List Nat).length :=
  ⟨by norm_num, by rfl, by rfl, by decide⟩

/-- Witness for the amended C9 statement at a concrete sample. -/
theorem C9_binarize_antitone_witness :
    (binarize C9sig 2)[2]! ≤ (binarize C9sig 0)[2]! :=
  C9_binarize_antitone C9sig 0 2 (by norm_num) 2 (by decide)

/-! ## List access and edge-structure helper lemmas -/

theorem getElem!_of_getElem {α} [Inhabited α] {l : List α} {k : Nat} (hk : k < l.length) :
    l[k]! = l[k] := getElem!_pos l k hk

theorem getElem!_mem {α} [Inhabited α] {l : List α} {k : Nat} (hk : k < l.length) :
    l[k]! ∈ l := by
  rw [getElem!_pos l k hk]
  exact List.getElem_mem hk

theorem getElem!_map {α β} [Inhabited α] [Inhabited β] (f : α → β) (l : List α) (i : Nat)
    (hi : i < l.length) : (l.map f)[i]! = f l[i]! := by
  rw [getElem!_pos l i hi, getElem!_pos (l.map f) i (by simpa using hi)]
  simp

theorem headI_getElem! {α} [Inhabited α] {l : List α} (h : l ≠ []) : l.headI = l[0]! := by
  cases l with
  | nil => exact absurd rfl h
  | cons a t => simp [List.headI]

theorem sorted_getElem!_lt {l : List Nat} (hs : l.Sorted (· < ·)) {i j : Nat}
    (hij : i < j) (hj : j < l.length) : l[i]! < l[j]! := by
  have hi : i < l.length := lt_trans hij hj
  rw [getElem!_pos l i hi, getElem!_pos l j hj]
  exact List.pairwise_iff_getElem.mp hs i j hi hj hij

theorem sorted_getElem!_le {l : List Nat} (hs : l.Sorted (· < ·)) {i j : Nat}
    (hij : i ≤ j) (hj : j < l.length) : l[i]! ≤ l[j]! := by
  rcases eq_or_lt_of_le hij with rfl | hlt
  · exact le_refl _
  · exact le_of_lt (sorted_getElem!_lt hs hlt hj)

theorem mem_getElem! {α} [Inhabited α] {l : List α} {x : α} (hx : x ∈ l) :
    ∃ k, k < l.length ∧ l[k]! = x := by
  obtain ⟨n, h, he⟩ := List.mem_iff_getElem.mp hx
  exact ⟨n, h, by rw [getElem!_pos l n h]; exact he⟩

theorem sorted_mem_lt_index {l : List Nat} (hs : l.Sorted (· < ·)) {x j : Nat}
    (hx : x ∈ l) (hj : j < l.length) (hlt : x < l[j]!) : ∃ k, k < j ∧ l[k]! = x := by
  obtain ⟨k, hk, hke⟩ := mem_getElem! hx
  refine ⟨k, ?_, hke⟩
  by_contra hge
  push_neg at hge
  have := sorted_getElem!_le hs hge hk
  omega

theorem sorted_no_between {l : List Nat} (hs : l.Sorted (· < ·)) {x j : Nat}
    (hx : x ∈ l) (hj1 : j + 1 < l.length) (h1 : l[j]! < x) (h2 : x < l[(j + 1)]!) : False := by
  obtain ⟨k, hk, hke⟩ := mem_getElem! hx
  rcases lt_or_ge k (j + 1) with hc | hc
  · have : l[k]! ≤ l[j]! := sorted_getElem!_le hs (by omega) (by omega)
    omega
  · have : l[(j + 1)]! ≤ l[k]! := sorted_getElem!_le hs hc hk
    omega

theorem sorted_headI_le {l : List Nat} (hs : l.Sorted (· < ·)) {x : Nat} (hx : x ∈ l) :
    l.headI ≤ x := by
  cases l with
  | nil => simp at hx
  | cons a t =>
    rcases List.mem_cons.mp hx with rfl | hxt
    · simp [List.headI]
    · have := (List.sorted_cons.mp hs).1 x hxt
      simp only [List.headI]
      omega

theorem binarize_mem01 (force : List F3) (threshold : ℚ) :
    ∀ x ∈ binarize force threshold, x = 0 ∨ x = 1 := by
  intro x hx
  simp only [binarize, List.mem_map] at hx
  obtain ⟨s, _, he⟩ := hx
  split at he <;> omega

theorem diffL_length : ∀ l : List Int, (diffL l).length = l.length - 1
  | [] => rfl
  | [_] => rfl
  | _ :: b :: rest => by
    have ih := diffL_length (b :: rest)
    simp only [diffL, List.length_cons] at ih ⊢
    omega

theorem diffL_getElem! : ∀ (l : List Int) (k : Nat), k < (diffL l).length →
    (diffL l)[k]! = l[(k + 1)]! - l[k]!
  | _ :: _ :: _, 0, _ => by simp [diffL]
  | a :: b :: rest, k + 1, h => by
    have h' : k < (diffL (b :: rest)).length := by
      simpa [diffL] using h
    have ih := diffL_getElem! (b :: rest) k h'
    simpa [diffL] using ih

theorem mem_idxOfAux (v : Int) : ∀ (l : List Int) (n k : Nat),
    k ∈ idxOfAux v l n ↔ ∃ j, j < l.length ∧ l[j]! = v ∧ k = n + j
  | [], n, k => by simp [idxOfAux]
  | a :: rest, n, k => by
    have ih := mem_idxOfAux v rest (n + 1) k
    by_cases ha : a = v
    · simp only [idxOfAux, if_pos ha, List.mem_cons, ih]
      constructor
      · rintro (rfl | ⟨j, hj, hjv, rfl⟩)
        · exact ⟨0, by simp, by simpa using ha, by omega⟩
        · exact ⟨j + 1, by simpa using hj, by simpa using hjv, by omega⟩
      · rintro ⟨j, hj, hjv, rfl⟩
        cases j with
        | zero => left; omega
        | succ j' =>
          right
          exact ⟨j', by simpa using hj, by simpa using hjv, by omega⟩
    · simp only [idxOfAux, if_neg ha, ih]
      constructor
      · rintro ⟨j, hj, hjv, rfl⟩
        exact ⟨j + 1, by simpa using hj, by simpa using hjv, by omega⟩
      · rintro ⟨j, hj, hjv, rfl⟩
        cases j with
        | zero => exact absurd (by simpa using hjv) ha
        | succ j' =>
          exact ⟨j', by simpa using hj, by simpa using hjv, by omega⟩

theorem idxOfAux_ge (v : Int) (l : List Int) (n : Nat) : ∀ k ∈ idxOfAux v l n, n ≤ k := by
  intro k hk
  obtain ⟨j, _, _, rfl⟩ := (mem_idxOfAux v l n k).mp hk
  omega

theorem idxOfAux_sorted (v : Int) : ∀ (l : List Int) (n : Nat),
    (idxOfAux v l n).Sorted (· < ·)
  | [], n => by simp [idxOfAux]
  | a :: rest, n => by
    have ih := idxOfAux_sorted v rest (n + 1)
    by_cases ha : a = v
    · simp only [idxOfAux, if_pos ha]
      refine List.sorted_cons.mpr ⟨?_, ih⟩
      intro b hb
      have := idxOfAux_ge v rest (n + 1) b hb
      omega
    · simp only [idxOfAux, if_neg ha]
      exact ih

theorem mem_idxOf (v : Int) (l : List Int) (k : Nat) :
    k ∈ idxOf v l ↔ k < l.length ∧ l[k]! = v := by
  rw [idxOf, mem_idxOfAux]
  constructor
  · rintro ⟨j, hj, hjv, rfl⟩
    simpa using ⟨hj, hjv⟩
  · rintro ⟨hk, hkv⟩
    exact ⟨k, hk, hkv, by omega⟩

theorem idxOf_sorted (v : Int) (l : List Int) : (idxOf v l).Sorted (· < ·) :=
  idxOfAux_sorted v l 0

theorem descent_exists (l : List Int) (h01 : ∀ x ∈ l, x = 0 ∨ x = 1) :
    ∀ (d a b : Nat), b - a = d → a ≤ b → b < l.length → l[a]! = 1 → l[b]! = 0 →
      ∃ k, a ≤ k ∧ k < b ∧ l[k]! = 1 ∧ l[(k + 1)]! = 0
  | 0, a, b, hd, _, _, ha1, hb0 => by
    have hab : a = b := by omega
    rw [hab] at ha1
    omega
  | d + 1, a, b, hd, _, hb, ha1, hb0 => by
    have hab : a < b := by omega
    have ha1lt : a + 1 < l.length := by omega
    rcases h01 (l[(a + 1)]!) (getElem!_mem ha1lt) with h0 | h1
    · exact ⟨a, le_refl a, hab, ha1, h0⟩
    · obtain ⟨k, hk1, hk2, hk3, hk4⟩ :=
        descent_exists l h01 d (a + 1) b (by omega) (by omega) hb h1 hb0
      exact ⟨k, by omega, hk2, hk3, hk4⟩

theorem ascent_exists (l : List Int) (h01 : ∀ x ∈ l, x = 0 ∨ x = 1) :
    ∀ (d a b : Nat), b - a = d → a ≤ b → b < l.length → l[a]! = 0 → l[b]! = 1 →
      ∃ k, a ≤ k ∧ k < b ∧ l[k]! = 0 ∧ l[(k + 1)]! = 1
  | 0, a, b, hd, _, _, ha0, hb1 => by
    have hab : a = b := by omega
    rw [hab] at ha0
    omega
  | d + 1, a, b, hd, _, hb, ha0, hb1 => by
    have hab : a < b := by omega
    have ha1lt : a + 1 < l.length := by omega
    rcases h01 (l[(a + 1)]!) (getElem!_mem ha1lt) with h0 | h1
    · obtain ⟨k, hk1, hk2, hk3, hk4⟩ :=
        ascent_exists l h01 d (a + 1) b (by omega) (by omega) hb h0 hb1
      exact ⟨k, by omega, hk2, hk3, hk4⟩
    · exact ⟨a, le_refl a, hab, ha0, h1⟩

theorem riseAt_fallAt_disjoint {cp : List Int} {k : Nat} (hr : riseAt cp k)
    (hf : fallAt cp k) : False := by
  obtain ⟨_, h0, _⟩ := hr
  obtain ⟨_, h1, _⟩ := hf
  omega

theorem fall_between_rises {cp : List Int} (h01 : ∀ x ∈ cp, x = 0 ∨ x = 1) {i j : Nat}
    (hi : riseAt cp i) (hj : riseAt cp j) (hij : i < j) :
    ∃ k, i < k ∧ k < j ∧ fallAt cp k := by
  obtain ⟨hi1, _, hi1v⟩ := hi
  obtain ⟨hj1, hj0, _⟩ := hj
  obtain ⟨k, hk1, hk2, hk3, hk4⟩ :=
    descent_exists cp h01 (j - (i + 1)) (i + 1) j rfl (by omega) (by omega) hi1v hj0
  exact ⟨k, by omega, hk2, by omega, hk3, hk4⟩

theorem rise_between_falls {cp : List Int} (h01 : ∀ x ∈ cp, x = 0 ∨ x = 1) {i j : Nat}
    (hi : fallAt cp i) (hj : fallAt cp j) (hij : i < j) :
    ∃ k, i < k ∧ k < j ∧ riseAt cp k := by
  obtain ⟨hi1, _, hi1v⟩ := hi
  obtain ⟨hj1, hj0, _⟩ := hj
  obtain ⟨k, hk1, hk2, hk3, hk4⟩ :=
    ascent_exists cp h01 (j - (i + 1)) (i + 1) j rfl (by omega) (by omega) hi1v hj0
  exact ⟨k, by omega, hk2, by omega, hk3, hk4⟩

theorem mem_risingEdges (force : List F3) (threshold : ℚ) (k : Nat) :
    k ∈ risingEdges force threshold ↔ riseAt (binarize force threshold) k := by
  have hlen : (diffL (binarize force threshold)).length = (binarize force threshold).length - 1 :=
    diffL_length _
  rw [risingEdges, mem_idxOf]
  constructor
  · rintro ⟨hk, hkv⟩
    have hk1 : k + 1 < (binarize force threshold).length := by omega
    have he := diffL_getElem! (binarize force threshold) k hk
    rw [hkv] at he
    have h0 := binarize_mem01 force threshold _ (getElem!_mem (k := k) (by omega))
    have h1 := binarize_mem01 force threshold _ (getElem!_mem (k := k + 1) hk1)
    exact ⟨hk1, by omega, by omega⟩
  · rintro ⟨hk1, h0, h1⟩
    have hk : k < (diffL (binarize force threshold)).length := by omega
    refine ⟨hk, ?_⟩
    rw [diffL_getElem! _ k hk, h0, h1]
    decide

theorem mem_fallingEdges (force : List F3) (threshold : ℚ) (k : Nat) :
    k ∈ fallingEdges force threshold ↔ fallAt (binarize force threshold) k := by
  have hlen : (diffL (binarize force threshold)).length = (binarize force threshold).length - 1 :=
    diffL_length _
  rw [fallingEdges, mem_idxOf]
  constructor
  · rintro ⟨hk, hkv⟩
    have hk1 : k + 1 < (binarize force threshold).length := by omega
    have he := diffL_getElem! (binarize force threshold) k hk
    rw [hkv] at he
    have h0 := binarize_mem01 force threshold _ (getElem!_mem (k := k) (by omega))
    have h1 := binarize_mem01 force threshold _ (getElem!_mem (k := k + 1) hk1)
    exact ⟨hk1, by omega, by omega⟩
  · rintro ⟨hk1, h1, h0⟩
    have hk : k < (diffL (binarize force threshold)).length := by omega
    refine ⟨hk, ?_⟩
    rw [diffL_getElem! _ k hk, h1, h0]
    decide

theorem interleave_facts (cp : List Int) (h01 : ∀ x ∈ cp, x = 0 ∨ x = 1)
    (B F : List Nat) (hBs : B.Sorted (· < ·)) (hFs : F.Sorted (· < ·))
    (hBm : ∀ k, k ∈ B ↔ riseAt cp k) (hFm : ∀ k, k ∈ F ↔ fallAt cp k)
    (hBne : B ≠ []) (j : Nat) :
    (j < (F.filter (fun e => decide (B.headI < e))).length →
      j < B.length ∧ B[j]! < (F.filter (fun e => decide (B.headI < e)))[j]!) ∧
    (j < (F.filter (fun e => decide (B.headI < e))).length → j + 1 < B.length →
      (F.filter (fun e => decide (B.headI < e)))[j]! < B[(j + 1)]!) := by
  induction j using Nat.strong_induction_on with
  | _ j IH =>
  set F' := F.filter (fun e => decide (B.headI < e)) with hF'eq
  have hF's : F'.Sorted (· < ·) := hFs.filter _
  have hF'mem : ∀ k, k ∈ F' → fallAt cp k ∧ B.headI < k := by
    intro k hk
    rw [hF'eq, List.mem_filter] at hk
    refine ⟨(hFm k).mp hk.1, ?_⟩
    simpa using hk.2
  have hB0 : B.headI = B[0]! := headI_getElem! hBne
  have hBlen : 0 < B.length := List.length_pos.mpr hBne
  have hBrise : ∀ i, i < B.length → riseAt cp B[i]! :=
    fun i hi => (hBm _).mp (getElem!_mem hi)
  have hF'fall : ∀ i, i < F'.length → fallAt cp F'[i]! ∧ B.headI < F'[i]! :=
    fun i hi => hF'mem _ (getElem!_mem hi)
  have ha : j < F'.length → j < B.length ∧ B[j]! < F'[j]! := by
    intro hj
    cases j with
    | zero =>
      refine ⟨hBlen, ?_⟩
      have := (hF'fall 0 hj).2
      omega
    | succ j' =>
      have hj' : j' < F'.length := by omega
      obtain ⟨hj'B, hAj'⟩ := (IH j' (by omega)).1 hj'
      have hFF : F'[j']! < F'[(j' + 1)]! := sorted_getElem!_lt hF's (by omega) hj
      have hj1B : j' + 1 < B.length := by
        by_contra hle
        push_neg at hle
        obtain ⟨r, hr1, hr2, hrise⟩ :=
          rise_between_falls h01 (hF'fall j' hj').1 (hF'fall (j' + 1) hj).1 hFF
        have hrB : r ∈ B := (hBm r).mpr hrise
        obtain ⟨k, hk, hkr⟩ := mem_getElem! hrB
        have hkj : B[k]! ≤ B[j']! := sorted_getElem!_le hBs (by omega) hj'B
        omega
      refine ⟨hj1B, ?_⟩
      have hBj1 : F'[j']! < B[(j' + 1)]! := (IH j' (by omega)).2 hj' hj1B
      by_contra hcon
      push_neg at hcon
      have hne : F'[(j' + 1)]! ≠ B[(j' + 1)]! := by
        intro he
        have hfall := (hF'fall (j' + 1) hj).1
        rw [he] at hfall
        exact riseAt_fallAt_disjoint (hBrise (j' + 1) hj1B) hfall
      have hlt : F'[(j' + 1)]! < B[(j' + 1)]! := lt_of_le_of_ne hcon hne
      obtain ⟨r, hr1, hr2, hrise⟩ :=
        rise_between_falls h01 (hF'fall j' hj').1 (hF'fall (j' + 1) hj).1 hFF
      have hrB : r ∈ B := (hBm r).mpr hrise
      exact sorted_no_between hBs hrB hj1B (by omega) (by omega)
  have hb : j < F'.length → j + 1 < B.length → F'[j]! < B[(j + 1)]! := by
    intro hj hj1
    obtain ⟨hjB, hAj⟩ := ha hj
    by_contra hcon
    push_neg at hcon
    have hne : B[(j + 1)]! ≠ F'[j]! := by
      intro he
      have hfall := (hF'fall j hj).1
      rw [← he] at hfall
      exact riseAt_fallAt_disjoint (hBrise (j + 1) hj1) hfall
    have hlt : B[(j + 1)]! < F'[j]! := lt_of_le_of_ne hcon hne
    have hBB : B[j]! < B[(j + 1)]! := sorted_getElem!_lt hBs (by omega) hj1
    obtain ⟨f, hf1, hf2, hfall⟩ :=
      fall_between_rises h01 (hBrise j hjB) (hBrise (j + 1) hj1) hBB
    have hfF : f ∈ F := (hFm f).mpr hfall
    have hfF' : f ∈ F' := by
      rw [hF'eq, List.mem_filter]
      refine ⟨hfF, ?_⟩
      have : B[0]! ≤ B[j]! := sorted_getElem!_le hBs (by omega) hjB
      simp only [decide_eq_true_eq]
      omega
    obtain ⟨k, hk, hkf⟩ := sorted_mem_lt_index hF's hfF' hj (by omega)
    have hbk := (IH k (by omega)).2 (by omega) (by omega)
    have hkj : B[(k + 1)]! ≤ B[j]! := sorted_getElem!_le hBs (by omega) hjB
    omega
  exact ⟨ha, hb⟩

theorem step_ID_ok_elim (force : List F3) (threshold Fs min_step max_step : ℚ)
    (bs es : List Nat) (h : step_ID force threshold Fs min_step max_step = .ok (bs, es)) :
    2 ≤ (risingEdges force threshold).length ∧
    bs = (((retainedEdges (risingEdges force threshold) (fallingEdges force threshold)).1.zip
          (retainedEdges (risingEdges force threshold) (fallingEdges force threshold)).2).filter
          (goodStep min_step max_step)).map Prod.fst ∧
    es = (((retainedEdges (risingEdges force threshold) (fallingEdges force threshold)).1.zip
          (retainedEdges (risingEdges force threshold) (fallingEdges force threshold)).2).filter
          (goodStep min_step max_step)).map Prod.snd := by
  unfold step_ID at h
  split at h
  · dsimp only at h
    split at h
    · exact absurd h (by simp)
    · split at h
      · exact absurd h (by simp)
      · rename_i h0 h1
        simp only [Except.ok.injEq, Prod.mk.injEq] at h
        exact ⟨by omega, h.1.symm, h.2.symm⟩
  · exact absurd h (by simp)

/-- C2: whenever `step_ID` returns, the begin and end index sequences have
equal length and interleave strictly: `begins[i] < ends[i] < begins[i+1]`
for every valid `i` (hence each sequence is strictly increasing). -/
theorem C2_pairing_invariant (force : List F3) (threshold Fs min_step max_step : ℚ)
    (bs es : List Nat)
    (h : step_ID force threshold Fs min_step max_step = .ok (bs, es)) :
    bs.length = es.length ∧
    (∀ i, i < es.length → bs[i]! < es[i]!) ∧
    (∀ i, i + 1 < bs.length → es[i]! < bs[(i + 1)]!) ∧
    (∀ i, i + 1 < bs.length → bs[i]! < bs[(i + 1)]!) ∧
    (∀ i, i + 1 < es.length → es[i]! < es[(i + 1)]!) := by
  obtain ⟨hB2, hbs, hes⟩ := step_ID_ok_elim force threshold Fs min_step max_step bs es h
  have h01 := binarize_mem01 force threshold
  set B := risingEdges force threshold with hBdef
  set F := fallingEdges force threshold with hFdef
  have hBs : B.Sorted (· < ·) := idxOf_sorted 1 _
  have hFs : F.Sorted (· < ·) := idxOf_sorted (-1) _
  have hBm : ∀ k, k ∈ B ↔ riseAt (binarize force threshold) k := mem_risingEdges force threshold
  have hFm : ∀ k, k ∈ F ↔ fallAt (binarize force threshold) k := mem_fallingEdges force threshold
  have hBne : B ≠ [] := by
    intro he
    rw [he] at hB2
    simp at hB2
  have main := interleave_facts (binarize force threshold) h01 B F hBs hFs hBm hFm hBne
  set F' := F.filter (fun e => decide (B.headI < e)) with hF'eq
  have hq_le : F'.length ≤ B.length := by
    by_contra hgt
    push_neg at hgt
    exact absurd ((main B.length).1 hgt).1 (lt_irrefl _)
  have hr12 : retainedEdges B F = (B.take F'.length, F') := rfl
  set pairs := (B.take F'.length).zip F' with hpairsdef
  have hplen : pairs.length = F'.length := by
    rw [hpairsdef, List.length_zip, List.length_take]
    omega
  have hpget : ∀ j, j < F'.length → pairs[j]! = (B[j]!, F'[j]!) := by
    intro j hj
    have hjB : j < B.length := lt_of_lt_of_le hj hq_le
    have hjz : j < ((List.take F'.length B).zip F').length := by
      rw [List.length_zip, List.length_take]
      omega
    show ((List.take F'.length B).zip F')[j]! = (B[j]!, F'[j]!)
    rw [getElem!_pos ((List.take F'.length B).zip F') j hjz, getElem!_pos B j hjB,
      getElem!_pos F' j hj]
    simp only [List.getElem_zip, List.getElem_take]
  have hmem_pairs : ∀ p ∈ pairs, p.1 < p.2 := by
    intro p hp
    obtain ⟨j, hj, hje⟩ := List.mem_iff_getElem.mp hp
    have hj' : j < F'.length := by omega
    have hAj := ((main j).1 hj').2
    have hpj : pairs[j]! = (B[j]!, F'[j]!) := hpget j hj'
    rw [getElem!_pos pairs j hj, hje] at hpj
    rw [hpj]
    exact hAj
  have hpw : pairs.Pairwise (fun p q => p.2 < q.1) := by
    rw [List.pairwise_iff_getElem]
    intro a b ha hb hab
    have haq : a < F'.length := by omega
    have hbq : b < F'.length := by omega
    have h1 : pairs[a] = (B[a]!, F'[a]!) := by
      rw [← getElem!_pos pairs a ha, hpget a haq]
    have h2 : pairs[b] = (B[b]!, F'[b]!) := by
      rw [← getElem!_pos pairs b hb, hpget b hbq]
    rw [h1, h2]
    have hbB : b < B.length := lt_of_lt_of_le hbq hq_le
    have hfb := (main a).2 haq (by omega)
    have hmono : B[(a + 1)]! ≤ B[b]! := sorted_getElem!_le hBs (by omega) hbB
    simp only
    omega
  set good := pairs.filter (goodStep min_step max_step) with hgooddef
  have hbs' : bs = good.map Prod.fst := hbs
  have hes' : es = good.map Prod.snd := hes
  have hgs : good.Sublist pairs := List.filter_sublist pairs
  have hgpw : good.Pairwise (fun p q => p.2 < q.1) := hpw.sublist hgs
  have hgmem : ∀ p ∈ good, p.1 < p.2 := fun p hp => hmem_pairs p (List.mem_of_mem_filter hp)
  have hlen : bs.length = es.length := by
    rw [hbs', hes']
    simp
  have hgetbs : ∀ i, i < good.length → bs[i]! = good[i]!.1 := by
    intro i hi
    rw [hbs', getElem!_map Prod.fst good i hi]
  have hgetes : ∀ i, i < good.length → es[i]! = good[i]!.2 := by
    intro i hi
    rw [hes', getElem!_map Prod.snd good i hi]
  have hlbs : bs.length = good.length := by rw [hbs']; simp
  have hles : es.length = good.length := by rw [hes']; simp
  have main2 : ∀ i, i < es.length → bs[i]! < es[i]! := by
    intro i hi
    have hig : i < good.length := by omega
    rw [hgetbs i hig, hgetes i hig]
    exact hgmem _ (getElem!_mem hig)
  have main3 : ∀ i, i + 1 < bs.length → es[i]! < bs[(i + 1)]! := by
    intro i hi
    have hig : i + 1 < good.length := by omega
    rw [hgetes i (by omega), hgetbs (i + 1) hig]
    have := List.pairwise_iff_getElem.mp hgpw i (i + 1) (by omega) hig (by omega)
    rw [getElem!_pos good i (by omega), getElem!_pos good (i + 1) hig]
    exact this
  refine ⟨hlen, main2, main3, ?_, ?_⟩
  · intro i hi
    have h1 := main2 i (by omega)
    have h2 := main3 i hi
    omega
  · intro i hi
    have h1 := main3 i (by omega)
    have h2 := main2 (i + 1) hi
    omega

/-- Witness for C2 on a concrete two-step signal. -/
theorem C2_pairing_invariant_witness :
    step_ID [(0,0,0), (0,0,150), (0,0,150), (0,0,0), (0,0,150), (0,0,150), (0,0,0)]
      100 1000 1 5 = .ok ([0, 3], [2, 5]) ∧
    ([0, 3] : List Nat).length = ([2, 5] : List Nat).length ∧
    ([0, 3] : List Nat)[0]! < ([2, 5] : List Nat)[0]! ∧
    ([2, 5] : List Nat)[0]! < ([0, 3] : List Nat)[1]! := by
  have h : step_ID [(0,0,0), (0,0,150), (0,0,150), (0,0,0), (0,0,150), (0,0,150), (0,0,0)]
      100 1000 1 5 = .ok ([0, 3], [2, 5]) := by rfl
  have main := C2_pairing_invariant _ 100 1000 1 5 [0, 3] [2, 5] h
  exact ⟨h, main.1, main.2.1 0 (by decide), main.2.2.1 0 (by decide)⟩

/-- C5: if the vertical channel is above threshold at the first sample,
the first falling edge precedes the first rising edge; the
retained-edge step of `step_ID` discards every falling edge at or before the first
rising edge, so the first retained end index exceeds the first retained
begin index, and the begin list is truncated to exactly the retained end
count. -/
theorem C5_leading_fall_policy (force : List F3) (threshold : ℚ)
    (hne : force ≠ []) (hhigh : threshold < force.headI.2.2)
    (hB2 : 2 ≤ (risingEdges force threshold).length) :
    (fallingEdges force threshold ≠ [] ∧
      (fallingEdges force threshold).headI < (risingEdges force threshold).headI) ∧
    (∀ e ∈ fallingEdges force threshold, e ≤ (risingEdges force threshold).headI →
      e ∉ (retainedEdges (risingEdges force threshold) (fallingEdges force threshold)).2) ∧
    ((retainedEdges (risingEdges force threshold) (fallingEdges force threshold)).2 ≠ [] →
      (retainedEdges (risingEdges force threshold) (fallingEdges force threshold)).1.headI <
        (retainedEdges (risingEdges force threshold) (fallingEdges force threshold)).2.headI) ∧
    (retainedEdges (risingEdges force threshold) (fallingEdges force threshold)).1.length =
      (retainedEdges (risingEdges force threshold) (fallingEdges force threshold)).2.length := by
  have h01 := binarize_mem01 force threshold
  set B := risingEdges force threshold with hBdef
  set F := fallingEdges force threshold with hFdef
  have hBs : B.Sorted (· < ·) := idxOf_sorted 1 _
  have hFs : F.Sorted (· < ·) := idxOf_sorted (-1) _
  have hBm : ∀ k, k ∈ B ↔ riseAt (binarize force threshold) k := mem_risingEdges force threshold
  have hFm : ∀ k, k ∈ F ↔ fallAt (binarize force threshold) k := mem_fallingEdges force threshold
  have hBne : B ≠ [] := by
    intro he
    rw [he] at hB2
    simp at hB2
  have hfne : 0 < force.length := List.length_pos.mpr hne
  have hc0 : (binarize force threshold)[0]! = 1 := by
    rw [binarize, getElem!_map _ force 0 hfne, headI_getElem! hne] at *
    rw [if_pos hhigh]
  have hB0 : B.headI = B[0]! := headI_getElem! hBne
  have hB0rise : riseAt (binarize force threshold) B[0]! :=
    (hBm _).mp (getElem!_mem (by omega))
  obtain ⟨hB01, hB00, _⟩ := hB0rise
  have hB0pos : 0 < B[0]! := by
    rcases Nat.eq_zero_or_pos B[0]! with h0 | hpos
    · rw [h0] at hB00
      omega
    · exact hpos
  obtain ⟨k, hk0, hkB, hk1, hk2⟩ :=
    descent_exists (binarize force threshold) h01 B[0]! 0 B[0]! (by omega) (by omega)
      (by omega) hc0 hB00
  have hkfall : fallAt (binarize force threshold) k := ⟨by omega, hk1, hk2⟩
  have hkF : k ∈ F := (hFm k).mpr hkfall
  have hFne : F ≠ [] := List.ne_nil_of_mem hkF
  have hFheadlt : F.headI < B.headI := by
    have := sorted_headI_le hFs hkF
    omega
  set F' := F.filter (fun e => decide (B.headI < e)) with hF'eq
  have hr12 : retainedEdges B F = (B.take F'.length, F') := rfl
  have main := interleave_facts (binarize force threshold) h01 B F hBs hFs hBm hFm hBne
  have hq_le : F'.length ≤ B.length := by
    by_contra hgt
    push_neg at hgt
    exact absurd ((main B.length).1 hgt).1 (lt_irrefl _)
  have hF'gt : ∀ x ∈ F', B.headI < x := by
    intro x hx
    rw [hF'eq, List.mem_filter] at hx
    simpa using hx.2
  refine ⟨⟨hFne, hFheadlt⟩, ?_, ?_, ?_⟩
  · intro e heF hele hmem
    have hmem' : e ∈ F' := hmem
    have := hF'gt e hmem'
    omega
  · intro h2ne
    have h2ne' : F' ≠ [] := h2ne
    have hq1 : 0 < F'.length := List.length_pos.mpr h2ne'
    show (B.take F'.length).headI < F'.headI
    have h1 : (B.take F'.length).headI = B.headI := by
      cases hB : B with
      | nil => exact absurd hB hBne
      | cons a t =>
        cases hq : F'.length with
        | zero => omega
        | succ m => simp [hB, hq, List.take, List.headI]
    rw [h1]
    have hF'0 : F'.headI = F'[0]! := headI_getElem! h2ne'
    have := hF'gt _ (getElem!_mem hq1)
    omega
  · show (B.take F'.length).length = F'.length
    simp only [List.length_take]
    omega

/-- Witness for C5 on a signal that starts above threshold. -/
theorem C5_leading_fall_policy_witness :
    (fallingEdges startsHighSig 1).headI < (risingEdges startsHighSig 1).headI ∧
    (retainedEdges (risingEdges startsHighSig 1) (fallingEdges startsHighSig 1)).1.length =
      (retainedEdges (risingEdges startsHighSig 1) (fallingEdges startsHighSig 1)).2.length :=
  ⟨(C5_leading_fall_policy startsHighSig 1 (by decide) (by norm_num [startsHighSig])
      (by decide)).1.2,
   (C5_leading_fall_policy startsHighSig 1 (by decide) (by norm_num [startsHighSig])
      (by decide)).2.2.2⟩

/-! ## Detrend-loop characterization -/

theorem detrendLoop_unfold (f : List F3) (bs : List Nat) (ms : List F3) :
    detrendLoop f bs ms = detrendPartial f bs ms (ms.length - 1) := rfl

theorem writeWindow_length (acc src : List F3) (s e : Nat) (d : ℚ) :
    (writeWindow acc src s e d).length = acc.length := by
  simp [writeWindow]

theorem writeWindow_getElem! (acc src : List F3) (s e : Nat) (d : ℚ) (n : Nat)
    (hn : n < acc.length) :
    (writeWindow acc src s e d)[n]! =
      if s ≤ n ∧ n < e then sub3 src[n]! d else acc[n]! := by
  have hn' : n < (writeWindow acc src s e d).length := by
    rw [writeWindow_length]
    exact hn
  rw [getElem!_pos (writeWindow acc src s e d) n hn']
  simp [writeWindow]

theorem detrendPartial_zero (f : List F3) (bs : List Nat) (ms : List F3) :
    detrendPartial f bs ms 0 = List.replicate f.length ((0 : ℚ), (0 : ℚ), (0 : ℚ)) := rfl

theorem detrendPartial_succ (f : List F3) (bs : List Nat) (ms : List F3) (m : Nat) :
    detrendPartial f bs ms (m + 1) =
      writeWindow (detrendPartial f bs ms m) f bs[m]! bs[(m+1)]!
        ((ms[m]!.2.2 + ms[(m+1)]!.2.2) / 2) := by
  unfold detrendPartial
  rw [List.range_succ, List.foldl_append]
  rfl

theorem detrendPartial_length (f : List F3) (bs : List Nat) (ms : List F3) (m : Nat) :
    (detrendPartial f bs ms m).length = f.length := by
  induction m with
  | zero => simp [detrendPartial_zero]
  | succ m ih =>
    rw [detrendPartial_succ, writeWindow_length]
    exact ih

theorem detrendPartial_spec (f : List F3) (bs : List Nat) (ms : List F3)
    (hs : bs.Sorted (· < ·)) :
    ∀ m, (∀ i, i < m → i + 1 < bs.length) → ∀ n, n < f.length →
      (∀ i, i < m → bs[i]! ≤ n → n < bs[(i + 1)]! →
        (detrendPartial f bs ms m)[n]! =
          sub3 f[n]! ((ms[i]!.2.2 + ms[(i + 1)]!.2.2) / 2)) ∧
      ((∀ i, i < m → ¬ (bs[i]! ≤ n ∧ n < bs[(i + 1)]!)) →
        (detrendPartial f bs ms m)[n]! = (0, 0, 0)) := by
  intro m
  induction m with
  | zero =>
    intro _ n hn
    refine ⟨fun i hi => absurd hi (by omega), fun _ => ?_⟩
    rw [detrendPartial_zero,
      getElem!_pos (List.replicate f.length ((0:ℚ),(0:ℚ),(0:ℚ))) n (by simpa using hn)]
    simp
  | succ m ih =>
    intro hm n hn
    have hmb := hm m (by omega)
    have prevspec := ih (fun i hi => hm i (by omega)) n hn
    have hplen : n < (detrendPartial f bs ms m).length := by
      rw [detrendPartial_length]
      exact hn
    rw [detrendPartial_succ,
      writeWindow_getElem! (detrendPartial f bs ms m) f bs[m]! bs[(m+1)]! _ n hplen]
    constructor
    · intro i hi hbi hni
      by_cases hcase : bs[m]! ≤ n ∧ n < bs[(m+1)]!
      · rw [if_pos hcase]
        rcases Nat.lt_succ_iff_lt_or_eq.mp hi with hilt | rfl
        · exfalso
          have : bs[(i + 1)]! ≤ bs[m]! := sorted_getElem!_le hs (by omega) (by omega)
          omega
        · rfl
      · rw [if_neg hcase]
        rcases Nat.lt_succ_iff_lt_or_eq.mp hi with hilt | rfl
        · exact prevspec.1 i hilt hbi hni
        · exact absurd ⟨hbi, hni⟩ hcase
    · intro hnone
      rw [if_neg (hnone m (by omega))]
      exact prevspec.2 (fun i hi => hnone i (by omega))

theorem span_window (bs : List Nat) (hs : bs.Sorted (· < ·)) :
    ∀ (j : Nat), j < bs.length → ∀ n, bs[0]! ≤ n → n < bs[j]! →
      ∃ i, i + 1 ≤ j ∧ bs[i]! ≤ n ∧ n < bs[(i + 1)]! := by
  intro j
  induction j with
  | zero =>
    intro _ n h0 hj
    exact absurd hj (by omega)
  | succ j' ih =>
    intro hj n h0 hjn
    by_cases hc : bs[j']! ≤ n
    · exact ⟨j', le_refl _, hc, hjn⟩
    · push_neg at hc
      obtain ⟨i, hi1, hi2, hi3⟩ := ih (by omega) n h0 hc
      exact ⟨i, by omega, hi2, hi3⟩

/-- C1 (amended): for `L = aerial_means.length` (`= K - 1` for `K`
validated stance phases), the detrend loop runs `i` from `0` to `L - 2`
(`= K - 3`), subtracting the baseline
`(aerial_means[i].vertical + aerial_means[i+1].vertical)/2` from all
three axes of every sample in `[begins[i], begins[i+1])`, so the
corrected region spans from `begins[0]` only up to `begins[L-1]`
(`= begins[K-2]`, not `begins[K-1]`); samples outside it are left at the
zero initialization. -/
theorem C1_detrend_windows (force_f : List F3) (bs : List Nat) (ms : List F3)
    (hs : bs.Sorted (· < ·)) (hmsbs : ms.length ≤ bs.length) :
    (detrendLoop force_f bs ms).length = force_f.length ∧
    (∀ n, n < force_f.length → ∀ i, i + 2 ≤ ms.length → bs[i]! ≤ n → n < bs[(i + 1)]! →
      (detrendLoop force_f bs ms)[n]! =
        sub3 force_f[n]! ((ms[i]!.2.2 + ms[(i + 1)]!.2.2) / 2)) ∧
    (∀ n, n < force_f.length →
      (n < bs.headI ∨ (1 ≤ ms.length ∧ bs[(ms.length - 1)]! ≤ n)) →
      (detrendLoop force_f bs ms)[n]! = (0, 0, 0)) ∧
    (ms.length ≤ 1 → ∀ n, n < force_f.length → (detrendLoop force_f bs ms)[n]! = (0, 0, 0)) ∧
    (∀ n, 1 ≤ ms.length → bs.headI ≤ n → n < bs[(ms.length - 1)]! →
      ∃ i, i + 2 ≤ ms.length ∧ bs[i]! ≤ n ∧ n < bs[(i + 1)]!) := by
  have hbound : ∀ i, i < ms.length - 1 → i + 1 < bs.length := by
    intro i hi
    omega
  have hspec := detrendPartial_spec force_f bs ms hs (ms.length - 1) hbound
  have hbsne : 1 ≤ ms.length → bs ≠ [] := by
    intro h1 he
    rw [he] at hmsbs
    simp only [List.length_nil] at hmsbs
    omega
  refine ⟨?_, ?_, ?_, ?_, ?_⟩
  · rw [detrendLoop_unfold, detrendPartial_length]
  · intro n hn i hi hbi hni
    rw [detrendLoop_unfold]
    exact (hspec n hn).1 i (by omega) hbi hni
  · intro n hn hout
    rw [detrendLoop_unfold]
    refine (hspec n hn).2 ?_
    intro i hi
    rcases hout with hlo | ⟨h1, hhi⟩
    · rw [headI_getElem! (hbsne (by omega))] at hlo
      have : bs[0]! ≤ bs[i]! := sorted_getElem!_le hs (by omega) (by omega)
      omega
    · have : bs[(i + 1)]! ≤ bs[(ms.length - 1)]! := sorted_getElem!_le hs (by omega) (by omega)
      omega
  · intro h1 n hn
    rw [detrendLoop_unfold]
    have hm0 : ms.length - 1 = 0 := by omega
    rw [hm0]
    exact ((detrendPartial_spec force_f bs ms hs 0 (by omega)) n hn).2
      (fun i hi => absurd hi (by omega))
  · intro n h1 hlo hhi
    rw [headI_getElem! (hbsne h1)] at hlo
    obtain ⟨i, hi1, hi2, hi3⟩ :=
      span_window bs hs (ms.length - 1) (by omega) n hlo hhi
    exact ⟨i, by omega, hi2, hi3⟩

/-- Counterexample to C1 as stated: with `K = 3` stance begins `[2,5,8]`
and the `K - 1 = 2` aerial means all zero, the claim says the window
`[begins[1], begins[2]) = [5,8)` is corrected (so sample 6 keeps its
input value 1 after subtracting a zero baseline), but the loop stops
before it and sample 6 is left at the zero initialization. -/
theorem C1_counterexample :
    (detrendLoop C1force [2, 5, 8] [(0,0,0), (0,0,0)])[6]! = (0, 0, 0) ∧
    C1force[6]! = (1, 1, 1) ∧
    ([2, 5, 8] : List Nat)[1]! ≤ 6 ∧ 6 < ([2, 5, 8] : List Nat)[2]! ∧
    (∀ mv ∈ [((0:ℚ), (0:ℚ), (0:ℚ)), ((0:ℚ), (0:ℚ), (0:ℚ))], mv.2.2 = 0) := by
  refine ⟨?_, by rfl, by decide, by decide, by decide⟩
  rfl

/-- Witness for the amended C1 statement: three stance begins `[0,1,2]`,
two aerial means; the single processed window `[0,1)` gets the baseline
`(0+1)/2` subtracted, and the sample at `begins[L-1] = 1` stays zero. -/
theorem C1_detrend_windows_witness :
    (detrendLoop [((1:ℚ),(1:ℚ),(1:ℚ)), (1,1,1), (1,1,1)] [0, 1, 2]
        [(0,0,0), (0,0,1)])[0]! =
      sub3 ((1:ℚ),(1:ℚ),(1:ℚ)) ((0 + 1) / 2) ∧
    (detrendLoop [((1:ℚ),(1:ℚ),(1:ℚ)), (1,1,1), (1,1,1)] [0, 1, 2]
        [(0,0,0), (0,0,1)])[1]! = (0, 0, 0) := by
  have main := C1_detrend_windows [((1:ℚ),(1:ℚ),(1:ℚ)), (1,1,1), (1,1,1)] [0, 1, 2]
    [(0,0,0), (0,0,1)] (by decide) (by decide)
  constructor
  · have h := main.2.1 0 (by decide) 0 (by decide) (by decide) (by decide)
    rw [h]
    rfl
  · exact main.2.2.1 1 (by decide) (Or.inr ⟨by decide, by decide⟩)

/-- C7: when every aerial-phase mean supplied to the drift-correction
step has zero vertical component, every subtracted baseline is zero, so
inside the corrected region `[begins[0], begins[L-1])` the output equals
the input signal exactly (exact rational arithmetic stands in for the
floating-point tolerance). -/
theorem C7_zero_mean_identity (force_f : List F3) (bs : List Nat) (ms : List F3)
    (hs : bs.Sorted (· < ·)) (hmsbs : ms.length ≤ bs.length)
    (hz : ∀ mv ∈ ms, mv.2.2 = 0) (n : Nat) (hn : n < force_f.length)
    (h1 : 1 ≤ ms.length) (hlo : bs.headI ≤ n) (hhi : n < bs[(ms.length - 1)]!) :
    (detrendLoop force_f bs ms)[n]! = force_f[n]! := by
  have hbsne : bs ≠ [] := by
    intro he
    rw [he] at hmsbs
    simp only [List.length_nil] at hmsbs
    omega
  rw [headI_getElem! hbsne] at hlo
  obtain ⟨i, hi1, hi2, hi3⟩ := span_window bs hs (ms.length - 1) (by omega) n hlo hhi
  have hbound : ∀ j, j < ms.length - 1 → j + 1 < bs.length := by
    intro j hj
    omega
  rw [detrendLoop_unfold]
  have h := (detrendPartial_spec force_f bs ms hs (ms.length - 1) hbound n hn).1 i
    (by omega) hi2 hi3
  rw [h]
  have hz1 : ms[i]!.2.2 = 0 := hz _ (getElem!_mem (by omega))
  have hz2 : ms[(i + 1)]!.2.2 = 0 := hz _ (getElem!_mem (by omega))
  rw [hz1, hz2, sub3]
  norm_num

/-- Witness for C7 at a concrete three-sample signal. -/
theorem C7_zero_mean_identity_witness :
    (detrendLoop [((1:ℚ),(1:ℚ),(1:ℚ)), (2,2,2), (3,3,3)] [0, 2]
        [(0,0,0), (5,5,0)])[1]! = ((2:ℚ), (2:ℚ), (2:ℚ)) := by
  have h := C7_zero_mean_identity [((1:ℚ),(1:ℚ),(1:ℚ)), (2,2,2), (3,3,3)] [0, 2]
    [(0,0,0), (5,5,0)] (by decide) (by decide) (by decide) 1 (by decide)
    (by decide) (by decide) (by decide)
  rw [h]
  rfl

/-! ## Aerial-mean characterization -/

theorem sum_range_map (g : Nat → ℚ) : ∀ (n : Nat),
    ((List.range n).map g).sum = ∑ k in Finset.range n, g k := by
  intro n
  induction n with
  | zero => simp
  | succ n ih =>
    rw [List.range_succ, List.map_append, List.sum_append, Finset.sum_range_succ, ih]
    simp

theorem npSlice_eq_map (l : List F3) (s e : Nat) (hse : s ≤ e) (hel : e ≤ l.length) :
    npSlice l s e = (List.range (e - s)).map (fun k => l[(s + k)]!) := by
  apply List.ext_getElem
  · simp only [npSlice, List.length_drop, List.length_take, List.length_map, List.length_range]
    omega
  · intro n h1 h2
    have hsn : s + n < l.length := by
      simp only [npSlice, List.length_drop, List.length_take] at h1
      omega
    simp only [npSlice, List.getElem_drop, List.getElem_take, List.getElem_map,
      List.getElem_range]
    rw [getElem!_pos l (s + n) hsn]

/-- C6: for every aerial phase `i` whose trimmed interior
`[ab[i]+trim, ae[i]-trim)` is non-empty and lies inside the signal,
`estimate_means` returns exactly the arithmetic mean of the samples in
that half-open interval, computed independently on each of the three
axes. -/
theorem C6_aerial_means (force_f : List F3) (ab ae : List Nat) (trim : Nat) (i : Nat)
    (hi : i < ab.length) (hne : ab[i]! + trim < ae[i]! - trim)
    (hlen : ae[i]! - trim ≤ force_f.length) :
    (estimate_means force_f ab ae trim)[i]! =
      ((∑ k in Finset.range (ae[i]! - trim - (ab[i]! + trim)),
          (force_f[(ab[i]! + trim + k)]!).1) /
            ((ae[i]! - trim - (ab[i]! + trim) : Nat) : ℚ),
       (∑ k in Finset.range (ae[i]! - trim - (ab[i]! + trim)),
          (force_f[(ab[i]! + trim + k)]!).2.1) /
            ((ae[i]! - trim - (ab[i]! + trim) : Nat) : ℚ),
       (∑ k in Finset.range (ae[i]! - trim - (ab[i]! + trim)),
          (force_f[(ab[i]! + trim + k)]!).2.2) /
            ((ae[i]! - trim - (ab[i]! + trim) : Nat) : ℚ)) := by
  have hr : i < (List.range ab.length).length := by simpa using hi
  have hri : (List.range ab.length)[i]! = i := by
    rw [getElem!_pos (List.range ab.length) i hr]
    simp
  rw [estimate_means, getElem!_map _ (List.range ab.length) i hr, hri]
  rw [npSlice_eq_map force_f (ab[i]! + trim) (ae[i]! - trim) (by omega) hlen]
  simp only [npMean, List.map_map, List.length_map, List.length_range, Function.comp]
  rw [sum_range_map, sum_range_map, sum_range_map]
  rfl

/-- Witness for C6 on a five-sample signal with one aerial phase. -/
theorem C6_aerial_means_witness :
    (estimate_means [((0:ℚ),(0:ℚ),(0:ℚ)), (1,2,3), (4,5,6), (7,8,9), (0,0,0)]
        [1] [5] 1)[0]! = (11 / 2, 13 / 2, 15 / 2) := by
  have h := C6_aerial_means [((0:ℚ),(0:ℚ),(0:ℚ)), (1,2,3), (4,5,6), (7,8,9), (0,0,0)]
    [1] [5] 1 0 (by decide) (by decide) (by decide)
  rw [h]
  norm_num [Finset.sum_range_succ]
